import Mathlib

/-!
Formal model of the NASA outgassing-database scraper (`src/main.py`).

The pipeline fetches a paginated HTML table, shapes rows (deriving
`RML_Pct`), removes exact-duplicate rows, classifies each row from
`(RML_Pct, CVCM_Pct)`, normalizes the free-text `Application` column via an
ordered list of regex substitutions, reorders columns, and writes three
artifacts.

Modelling conventions:
* polars `Decimal` values are embedded as `ℚ` (exact decimals), with `null`
  as `Option.none`;
* the regular expressions used by `str.replace_all` are embedded by a small
  explicit matcher (`RE`, `mtch`, `replaceAll`) implementing the leftmost,
  first-alternative-preferred, greedy semantics of the Rust regex engine used
  by polars, restricted to the constructs the source actually uses
  (literals, case-insensitive literals, `.`, character classes, `?`,
  classes under `*` and `+`, alternation, and the word boundary `\b`);
  character classes (`\w`, `\s`, case folding) are taken at their ASCII
  meaning, which coincides with the Unicode one on the scraped data;
* `pl.when(...).then(...)` chains use Kleene logic on nullable Booleans and
  treat a null condition as not matching;
* the unbounded `while True` pagination loop is embedded with an explicit
  fuel parameter; theorems quantify over all sufficiently large fuels, so
  the results are independent of the cutoff.
-/

namespace NasaOutgassing

/-! ### Characters (ASCII model of the Rust regex classes) -/

/-- `\w` of the regex engine, at its ASCII meaning. -/
def isWordChar (c : Char) : Bool :=
  c.isAlphanum || c = '_'

/-- `\s` of the regex engine, at its ASCII meaning. -/
def isSpaceChar (c : Char) : Bool :=
  c = ' ' || c = '\t' || c = '\n' || c = '\r' || c = '\x0b' || c = '\x0c'

/-! ### A small regex matcher

Only the constructs occurring in `src/main.py` are represented.  `mtch`
returns every way a pattern can match a prefix of the input, in the
priority order of a backtracking engine (greedy quantifiers, left
alternative first); the scanner takes the head of that list, which is
exactly the match the Rust regex crate (leftmost-first semantics) selects.
Each outcome carries the last consumed character (for later `\b` tests) and
the remaining input. -/

inductive RE where
  | eps : RE
  | lit (c : Char) : RE
  | ilit (c : Char) : RE
  | anyc : RE
  | cls (cs : List Char) : RE
  | wb : RE
  | seq (a b : RE) : RE
  | alt (a b : RE) : RE
  | opt (a : RE) : RE
  | starP (p : Char → Bool) : RE
  | plusP (p : Char → Bool) : RE

/-- Is the position between `prev` and the head of `s` a `\b` boundary? -/
def atBoundary (prev : Option Char) (s : List Char) : Bool :=
  (match prev with | none => false | some c => isWordChar c)
    != (match s.head? with | none => false | some c => isWordChar c)

/-- All ways a greedy `p*` can split the input, longest first. -/
def starSplits (p : Char → Bool) : Option Char → List Char → List (Option Char × List Char)
  | prev, [] => [(prev, [])]
  | prev, c :: rest =>
    if p c then starSplits p (some c) rest ++ [(prev, c :: rest)]
    else [(prev, c :: rest)]

/-- All prefix matches of `re` against `s`, in backtracking priority order.
`prev` is the character just before `s` in the overall haystack. -/
def mtch : RE → Option Char → List Char → List (Option Char × List Char)
  | .eps, prev, s => [(prev, s)]
  | .lit c, _, [] => (fun _ => []) c
  | .lit c, _, d :: rest => if d = c then [(some d, rest)] else []
  | .ilit c, _, [] => (fun _ => []) c
  | .ilit c, _, d :: rest => if d.toLower = c.toLower then [(some d, rest)] else []
  | .anyc, _, [] => []
  | .anyc, _, d :: rest => if d = '\n' then [] else [(some d, rest)]
  | .cls cs, _, [] => (fun _ => []) cs
  | .cls cs, _, d :: rest => if cs.contains d then [(some d, rest)] else []
  | .wb, prev, s => if atBoundary prev s then [(prev, s)] else []
  | .seq a b, prev, s => (mtch a prev s).flatMap fun pr => mtch b pr.1 pr.2
  | .alt a b, prev, s => mtch a prev s ++ mtch b prev s
  | .opt a, prev, s => mtch a prev s ++ [(prev, s)]
  | .starP p, prev, s => starSplits p prev s
  | .plusP p, _, s =>
    match s with
    | [] => []
    | c :: rest => if p c then starSplits p (some c) rest else []

/-- One pass of `str.replace_all`: scan left to right, replace each
non-overlapping leftmost match of `re` by the literal `repl`, continuing
after the matched text.  `fuel` is initialized to the input length; every
step consumes at least one input character, so the fuel never runs out. -/
def replaceAllGo (re : RE) (repl : List Char) : Nat → Option Char → List Char → List Char
  | 0, _, s => s
  | _ + 1, _, [] => []
  | fuel + 1, prev, c :: rest =>
    match (mtch re prev (c :: rest)).head? with
    | some (p, r) =>
      if r.length < rest.length + 1 then repl ++ replaceAllGo re repl fuel p r
      else c :: replaceAllGo re repl fuel (some c) rest
    | none => c :: replaceAllGo re repl fuel (some c) rest

def replaceAll (re : RE) (repl : List Char) (s : List Char) : List Char :=
  replaceAllGo re repl s.length none s

/-! ### Pattern builders -/

/-- Case-insensitive literal word, one `ilit` per character. -/
def istr (w : String) : RE :=
  w.data.foldr (fun c r => RE.seq (RE.ilit c) r) RE.eps

/-- `\b ⟨r⟩ \b` : whole-word match. -/
def wordRE (r : RE) : RE :=
  RE.seq RE.wb (RE.seq r RE.wb)

/-! ### The `Application` normalization pipeline (`src/main.py` lines 107-181) -/

/-- polars `str.to_titlecase`: a character is uppercased when the previous
character is not alphanumeric, lowercased otherwise. -/
def titlecaseGo : Bool → List Char → List Char
  | _, [] => []
  | up, c :: rest => (if up then c.toUpper else c.toLower) :: titlecaseGo (!c.isAlphanum) rest

def toTitlecase (s : List Char) : List Char :=
  titlecaseGo true s

/-- The acronym tuple of the source, in order (including the repeated
`"PCB"`). -/
def acronymsList : List String :=
  ["RF", "RFI", "EMC", "EMI", "ESD", "UV", "DVD", "IC", "ID", "PC", "PCB",
   "LED", "LCD", "TC", "LRO", "PCB"]

/-- The loop `for acronym in acronyms: replace_all (?i)\b{a}\b → a`. -/
def applyAcronyms (s : List Char) : List Char :=
  acronymsList.foldl (fun acc a => replaceAll (wordRE (istr a)) a.data acc) s

/-- The ordered `str.replace_all` chain of the source, one `(pattern,
replacement)` pair per call, in source order. -/
def substitutionRules : List (RE × List Char) :=
  [ (RE.lit '&', (" and ").data),
    (wordRE (istr "adh"), ("Adhesive").data),
    (wordRE (istr "tpe"), ("Tape").data),
    (wordRE (RE.seq (istr "anti") (RE.seq (RE.opt RE.anyc) (istr "static"))),
      ("Antistatic").data),
    (wordRE (istr "conf"), ("Conformal").data),
    (wordRE (istr "cond"), ("Conductive").data),
    (wordRE (istr "cpnd"), ("Compound").data),
    (wordRE (istr "cmpd"), ("Compound").data),
    (wordRE (istr "elec"), ("Electrical").data),
    (wordRE (RE.seq (istr "electrical") (RE.seq RE.anyc (istr "conductive"))),
      ("Electrically-Conductive").data),
    (wordRE (istr "blk"), ("Black").data),
    (wordRE (istr "unk"), ("Unknown").data),
    (wordRE (istr "vib"), ("Vibration").data),
    (wordRE (istr "opt"), ("Optical").data),
    (wordRE (RE.seq (istr "ther") (RE.opt (RE.ilit 'm'))), ("Thermal").data),
    (wordRE (RE.seq (istr "therm")
        (RE.seq (RE.starP isWordChar) (RE.seq RE.anyc (istr "conductive")))),
      ("Thermally-Conductive").data),
    (wordRE (istr "lube"), ("Lubricant").data),
    (wordRE (RE.seq (RE.alt (istr "matl") (istr "mtl"))
        (RE.seq (RE.opt (RE.ilit 's')) (RE.opt (RE.lit '.')))),
      ("Material").data),
    (wordRE (istr "maerials"), ("Materials").data),
    (wordRE (istr "coatint"), ("Coating").data),
    (wordRE (RE.seq (istr "wra")
        (RE.seq (RE.plusP (fun c => c.toLower = 'p'))
          (RE.seq (RE.ilit 'i') (RE.seq (RE.cls ['n', 'm', 'N', 'M']) (RE.ilit 'g'))))),
      ("Wrapping").data),
    (RE.plusP isSpaceChar, (" ").data),
    (RE.seq (RE.lit '3') (RE.seq (RE.opt RE.anyc) (RE.cls ['D', 'd'])), ("3D").data),
    (wordRE (RE.seq (RE.cls ['0', 'O', 'o']) (RE.seq (RE.opt RE.anyc) (istr "ring"))),
      ("O-Ring").data),
    (wordRE (istr "and"), ("and").data),
    (wordRE (istr "for"), ("for").data),
    (RE.lit '.', []),
    (RE.plusP isSpaceChar, (" ").data) ]

def applyChain (s : List Char) : List Char :=
  substitutionRules.foldl (fun acc rule => replaceAll rule.1 rule.2 acc) s

/-- polars `str.strip_chars()` with no argument: trim surrounding
whitespace. -/
def stripChars (s : List Char) : List Char :=
  (((s.dropWhile isSpaceChar).reverse.dropWhile isSpaceChar)).reverse

/-- The final exact-match `.replace({...})` dictionary. -/
def applicationReplaceMap : List (List Char × List Char) :=
  [ (("2 Side Tape").data, ("Tape, Double-Sided").data),
    (("2 Sided Tape").data, ("Tape, Double-Sided").data),
    (("Tape 2 Side").data, ("Tape, Double-Sided").data),
    (("Tape 2 Sided").data, ("Tape, Double-Sided").data),
    (("Capicator").data, ("Capacitor").data),
    (("Electrical Comp").data, ("Electrical Component").data),
    (("Electrical Components").data, ("Electrical Component").data),
    (("PC Board").data, ("PCB").data) ]

def dictReplace (s : List Char) : List Char :=
  match applicationReplaceMap.find? (fun kv => kv.1 == s) with
  | some kv => kv.2
  | none => s

/-- The normalization calls after the title-casing `with_columns`:
acronym uppercasing, the ordered substitution chain, trim, final
dictionary. -/
def normalizeTailChars (l : List Char) : List Char :=
  dictReplace (stripChars (applyChain (applyAcronyms l)))

/-- The full `Application` normalization on characters: title-case, then
the tail of the pipeline. -/
def normalizeAppChars (l : List Char) : List Char :=
  normalizeTailChars (toTitlecase l)

/-- The full `Application` normalization: title-case, acronym uppercasing,
the ordered substitution chain, trim, final dictionary. -/
def normalizeApplication (s : String) : String :=
  String.mk (normalizeAppChars s.data)

/-! ### The `Application` / `Raw_Application` columns (lines 128-181)

A polars `with_columns` call evaluates all its expressions against the
*input* frame.  In

    df.with_columns(pl.col("Application").str.to_titlecase(),
                    Raw_Application=pl.col("Application"))

both expressions therefore read the incoming `Application`:
`Raw_Application` receives the value before title-casing (the source
comment reads "Unmodified from source").  The later calls only rewrite
`Application`. -/

structure ScrapedRow where
  Application : String
deriving DecidableEq

structure AppRow where
  Application : String
  Raw_Application : String
deriving DecidableEq

/-- The first `with_columns` call of the normalization block. -/
def titlecaseStep (r : ScrapedRow) : AppRow :=
  { Application := String.mk (toTitlecase r.Application.data),
    Raw_Application := r.Application }

/-- The remaining normalization calls, which rewrite `Application` only. -/
def normalizeSteps (r : AppRow) : AppRow :=
  { r with Application := String.mk (normalizeTailChars r.Application.data) }

/-- The whole `Application` block of `scrape_nasa_outgassing`. -/
def applicationStage (r : ScrapedRow) : AppRow :=
  normalizeSteps (titlecaseStep r)

/-! ### Row shaping: the derived `RML_Pct` column (lines 50-55)

`RML_Pct = pl.col("TML_Pct") - pl.col("WVR_Pct").fill_null(0.0)`:
polars arithmetic propagates null, so a null `TML_Pct` yields a null
`RML_Pct`, and a null `WVR_Pct` is first replaced by `0`. -/

def rmlPct (tml wvr : Option ℚ) : Option ℚ :=
  match tml with
  | none => none
  | some t => some (t - wvr.getD 0)

/-! ### The classifier (lines 86-105)

The `pl.when/then/otherwise` chain.  Comparisons against null are null;
`&` and `|` follow Kleene logic; a null `when` condition does not match
(the row falls through to the next branch). -/

/-- Kleene conjunction on nullable Booleans. -/
def and3 : Option Bool → Option Bool → Option Bool
  | some false, _ => some false
  | _, some false => some false
  | some true, some true => some true
  | _, _ => none

/-- Kleene disjunction on nullable Booleans. -/
def or3 : Option Bool → Option Bool → Option Bool
  | some true, _ => some true
  | _, some true => some true
  | some false, some false => some false
  | _, _ => none

/-- Null-propagating `<=` against a literal. -/
def leO (a : Option ℚ) (q : ℚ) : Option Bool :=
  a.map fun x => decide (x ≤ q)

/-- Null-propagating `>` against a literal. -/
def gtO (a : Option ℚ) (q : ℚ) : Option Bool :=
  a.map fun x => decide (q < x)

/-- A `when` condition matches exactly when it is non-null and true. -/
def condHolds (c : Option Bool) : Bool :=
  c.getD false

/-- The `SpaceX_Classification` expression of the source. -/
def classify (rml cvcm : Option ℚ) : String :=
  if condHolds (and3 (leO rml 1) (leO cvcm (mkRat 1 10))) then "Pass"
  else if condHolds (and3 (leO rml 3) (leO cvcm (mkRat 1 10))) then
    "Rationale Code A (up to 2 sq-in)"
  else if condHolds (or3 (gtO rml 3) (gtO cvcm (mkRat 1 10))) then
    "Rationale Code B (up to 0.25 sq-in)"
  else "Fail"

/-- Modelled from the claim's wording: an ordered first-match-wins decision
list in which a comparison against a null field counts as no-match.  Kept
separate from `classify` (which transcribes the source) so the two can be
compared. -/
def matchLe : Option ℚ → ℚ → Bool
  | none, _ => false
  | some x, q => decide (x ≤ q)

def matchGt : Option ℚ → ℚ → Bool
  | none, _ => false
  | some x, q => decide (q < x)

def classifierSpec (rml cvcm : Option ℚ) : String :=
  if matchLe rml 1 && matchLe cvcm (mkRat 1 10) then "Pass"
  else if matchLe rml 3 && matchLe cvcm (mkRat 1 10) then
    "Rationale Code A (up to 2 sq-in)"
  else if matchGt rml 3 || matchGt cvcm (mkRat 1 10) then
    "Rationale Code B (up to 0.25 sq-in)"
  else "Fail"

/-! ### Pagination (lines 13-19 and 60-76)

`do_scrape` returns a transport fault, an end-of-data signal (`None`, no
`<table` in the markup), or the page's shaped rows.  The `while True` loop
of `scrape_nasa_outgassing` starts at page 1, appends each fetched frame
and stops at the first page without a table; `pl.concat` then joins the
collected frames, raising `ValueError("cannot concat empty list")` when no
frame was collected.  The loop itself has no bound, so it is embedded with
a fuel parameter; running out of fuel is a distinguished outcome that the
theorems exclude by taking the fuel large enough. -/

inductive FetchResult (α : Type) where
  | transportFail : FetchResult α
  | noTable : FetchResult α
  | table (rows : List α) : FetchResult α

inductive ScrapeOutcome (α : Type) where
  | ok (pages : List (List α)) : ScrapeOutcome α
  | transportFault : ScrapeOutcome α
  | fuelExhausted : ScrapeOutcome α

/-- The fetch loop, instrumented with the list of requested page numbers. -/
def fetchPages (src : Nat → FetchResult α) : Nat → Nat → List Nat × ScrapeOutcome α
  | 0, _ => ([], ScrapeOutcome.fuelExhausted)
  | fuel + 1, page =>
    match src page with
    | FetchResult.transportFail => ([page], ScrapeOutcome.transportFault)
    | FetchResult.noTable => ([page], ScrapeOutcome.ok [])
    | FetchResult.table rows =>
      let r := fetchPages src fuel (page + 1)
      (page :: r.1,
        match r.2 with
        | ScrapeOutcome.ok ps => ScrapeOutcome.ok (rows :: ps)
        | o => o)

/-- Fetch loop followed by the `pl.concat` step. -/
def scrapeDataset (src : Nat → FetchResult α) (fuel : Nat) : Except String (List α) :=
  match (fetchPages src fuel 1).2 with
  | ScrapeOutcome.ok pages =>
    if pages.isEmpty then Except.error ("cannot concat empty list")
    else Except.ok pages.flatten
  | ScrapeOutcome.transportFault => Except.error ("transport fault")
  | ScrapeOutcome.fuelExhausted => Except.error ("fuel exhausted")

/-! ### Deduplication (lines 78-83)

`df.unique(maintain_order=True)` over full rows: a row is removed exactly
when an identical row occurred earlier; kept rows stay in order. -/

def dedupeGo [DecidableEq α] (seen : List α) : List α → List α
  | [] => []
  | r :: rs => if r ∈ seen then dedupeGo seen rs else r :: dedupeGo (r :: seen) rs

def dedupe [DecidableEq α] (rows : List α) : List α :=
  dedupeGo [] rows

/-- Modelled from the claim's wording: keep the row at index `i` exactly
when no identical row occurs among the first `i` rows. -/
def dedupSpecAux [DecidableEq α] (orig : List α) : Nat → List α → List α
  | _, [] => []
  | i, r :: rs =>
    if r ∈ orig.take i then dedupSpecAux orig (i + 1) rs
    else r :: dedupSpecAux orig (i + 1) rs

def dedupSpec [DecidableEq α] (rows : List α) : List α :=
  dedupSpecAux rows 0 rows

/-- `main` (lines 216-223): on success the final table is written to the
three artifacts; any error propagates before any write happens. -/
def runMain [DecidableEq α] (src : Nat → FetchResult α) (fuel : Nat) :
    Option (List α × List α × List α) :=
  match scrapeDataset src fuel with
  | Except.ok rows => some (dedupe rows, dedupe rows, dedupe rows)
  | Except.error _ => none

/-! ### Column reordering (lines 188-205)

`OrderedSet(main) | (OrderedSet(df.columns) - main)` puts the whole
priority list first (whether or not each name is a present column) followed
by the remaining present columns in their original order; `df.select`
then raises if any requested column is absent.  polars column names are
unique, so the `OrderedSet` construction on `df.columns` performs no
deduplication. -/

def mainColsList : List String :=
  ["Material", "Application", "TML_Pct", "WVR_Pct", "CVCM_Pct", "RML_Pct",
   "Year", "SpaceX_Classification", "Data_Ref", "Manufacturer"]

def allColsOrdered (present : List String) : List String :=
  mainColsList ++ present.filter (fun c => decide (c ∉ mainColsList))

/-- `df.select(all_cols)`: `none` models the `ColumnNotFoundError` raised
when a requested column is not present. -/
def selectColumns (present : List String) : Option (List String) :=
  if (allColsOrdered present).all (fun c => decide (c ∈ present)) then
    some (allColsOrdered present)
  else none

/-- A concrete final-table row shape, used for the duplicate-removal
example. -/
structure OutRow where
  Material : String
  Application : String
  Data_Ref : String
deriving DecidableEq

/-! ## Basic lemmas about the Kleene connectives -/

lemma and3_some_some (a b : Bool) : and3 (some a) (some b) = some (a && b) := by
  cases a <;> cases b <;> rfl

lemma and3_some_none (b : Bool) : and3 (some b) none = if b then none else some false := by
  cases b <;> rfl

lemma and3_none_some (b : Bool) : and3 none (some b) = if b then none else some false := by
  cases b <;> rfl

lemma or3_some_some (a b : Bool) : or3 (some a) (some b) = some (a || b) := by
  cases a <;> cases b <;> rfl

lemma or3_some_none (b : Bool) : or3 (some b) none = if b then some true else none := by
  cases b <;> rfl

lemma or3_none_some (b : Bool) : or3 none (some b) = if b then some true else none := by
  cases b <;> rfl

/-! ## C1: the classifier -/

/-- Claim C1: the classifier is a pure total function of
`(RML_Pct, CVCM_Pct)` equal to the ordered first-match-wins decision list
(rule 1 `RML ≤ 1 ∧ CVCM ≤ 0.1 → Pass`, rule 2
`RML ≤ 3 ∧ CVCM ≤ 0.1 → Rationale Code A`, rule 3
`RML > 3 ∨ CVCM > 0.1 → Rationale Code B`, otherwise `Fail`) in which a
comparison against a null field counts as no-match; in particular
`(1.0, 0.1) → Pass`, `(2.5, 0.1) → Rationale Code A`,
`(5.0, 0.05) → Rationale Code B`, `(null, null) → Fail`, and a null
`RML_Pct` with `CVCM_Pct > 0.1` still gives `Rationale Code B`. -/
theorem classifier_decision_list :
    (∀ rml cvcm : Option ℚ, classify rml cvcm = classifierSpec rml cvcm) ∧
    classify (some 1) (some (mkRat 1 10)) = "Pass" ∧
    classify (some (mkRat 5 2)) (some (mkRat 1 10)) = "Rationale Code A (up to 2 sq-in)" ∧
    classify (some 5) (some (mkRat 1 20)) = "Rationale Code B (up to 0.25 sq-in)" ∧
    classify none none = "Fail" ∧
    classify none (some (mkRat 2 10)) = "Rationale Code B (up to 0.25 sq-in)" := by
  refine ⟨?_, by decide, by decide, by decide, by decide, by decide⟩
  intro rml cvcm
  rcases rml with _ | r <;> rcases cvcm with _ | c
  · rfl
  · cases h4 : decide (c ≤ mkRat 1 10) <;> cases h5 : decide (mkRat 1 10 < c) <;>
      simp [classify, classifierSpec, leO, gtO, matchLe, matchGt, condHolds,
        and3_none_some, or3_none_some, h4, h5]
  · cases h1 : decide (r ≤ (1 : ℚ)) <;> cases h2 : decide (r ≤ (3 : ℚ)) <;>
      cases h3 : decide ((3 : ℚ) < r) <;>
      simp [classify, classifierSpec, leO, gtO, matchLe, matchGt, condHolds,
        and3_some_none, or3_some_none, h1, h2, h3]
  · cases h1 : decide (r ≤ (1 : ℚ)) <;> cases h2 : decide (r ≤ (3 : ℚ)) <;>
      cases h3 : decide ((3 : ℚ) < r) <;> cases h4 : decide (c ≤ mkRat 1 10) <;>
      cases h5 : decide (mkRat 1 10 < c) <;>
      simp [classify, classifierSpec, leO, gtO, matchLe, matchGt, condHolds,
        and3_some_some, or3_some_some, h1, h2, h3, h4, h5]

/-! ## C3: the derived `RML_Pct` -/

/-- Claim C3: for every shaped row, `RML_Pct = TML_Pct - WVR_Pct` when both
are non-null, `RML_Pct = TML_Pct` when `WVR_Pct` is null (missing `WVR`
treated as zero), and `RML_Pct` is null when `TML_Pct` is null. -/
theorem rml_derivation :
    (∀ t w : ℚ, rmlPct (some t) (some w) = some (t - w)) ∧
    (∀ t : ℚ, rmlPct (some t) none = some t) ∧
    (∀ w : Option ℚ, rmlPct none w = none) := by
  refine ⟨fun t w => rfl, fun t => ?_, fun w => rfl⟩
  simp [rmlPct]

/-! ## C4: the `Raw_Application` snapshot -/

/-- Claim C4 is false on the code: both expressions of the `with_columns`
call are evaluated against the input frame, so `Raw_Application` receives
the original scraped value, not the title-cased one.  For the input
`"epoxy adhesive"` the claim predicts `Raw_Application = "Epoxy Adhesive"`
but the code stores `"epoxy adhesive"`. -/
theorem raw_application_counterexample :
    (applicationStage ⟨"epoxy adhesive"⟩).Raw_Application ≠
      String.mk (toTitlecase ("epoxy adhesive").data) := by
  decide

/-- Claim C4 amended: `Raw_Application` holds the original scraped
`Application` value unmodified (before the title-casing pass), while the
`Application` column receives the fully normalized form. -/
theorem raw_application_unmodified (r : ScrapedRow) :
    (applicationStage r).Raw_Application = r.Application ∧
    (applicationStage r).Application = normalizeApplication r.Application :=
  ⟨rfl, rfl⟩

/-! ## C5, C6, C9: the pagination loop -/

lemma fetchPages_ok {α : Type} (src : Nat → FetchResult α) (tbl : Nat → List α) (n : Nat)
    (hsome : ∀ i, 1 ≤ i → i ≤ n → src i = FetchResult.table (tbl i))
    (hstop : src (n + 1) = FetchResult.noTable) :
    ∀ fuel page, 1 ≤ page → page ≤ n + 1 → n + 1 - page < fuel →
      fetchPages src fuel page =
        (List.range' page (n + 2 - page),
          ScrapeOutcome.ok ((List.range' page (n + 1 - page)).map tbl)) := by
  intro fuel
  induction fuel with
  | zero => intro page _ _ h3; omega
  | succ fuel ih =>
    intro page h1 h2 h3
    by_cases hp : page = n + 1
    · subst hp
      have e1 : n + 2 - (n + 1) = 1 := by omega
      have e2 : n + 1 - (n + 1) = 0 := by omega
      rw [fetchPages, hstop, e1, e2]
      rfl
    · have hple : page ≤ n := by omega
      have hsrc := hsome page h1 hple
      have e1 : n + 2 - page = (n + 2 - (page + 1)) + 1 := by omega
      have e2 : n + 1 - page = (n + 1 - (page + 1)) + 1 := by omega
      rw [fetchPages, hsrc]
      simp only [ih (page + 1) (by omega) (by omega) (by omega)]
      rw [e1, e2, List.range'_succ, List.range'_succ]
      rfl

/-- Claim C5: when pages `1..n` have tables and page `n+1` is the first
table-less page, the loop requests exactly pages `1, 2, ..., n+1` in
increasing order, stops there, and the dataset is the concatenation of the
`n` pages in fetch order; no page beyond `n+1` is requested, for any fuel
at least `n+1` (so in particular the result does not depend on the
cutoff). -/
theorem pagination_terminates {α : Type} (src : Nat → FetchResult α) (tbl : Nat → List α)
    (n fuel : Nat) (hn : 1 ≤ n) (hfuel : n + 1 ≤ fuel)
    (hsome : ∀ i, 1 ≤ i → i ≤ n → src i = FetchResult.table (tbl i))
    (hstop : src (n + 1) = FetchResult.noTable) :
    fetchPages src fuel 1 =
      (List.range' 1 (n + 1), ScrapeOutcome.ok ((List.range' 1 n).map tbl)) ∧
    (∀ q ∈ (fetchPages src fuel 1).1, q ≤ n + 1) ∧
    scrapeDataset src fuel = Except.ok ((List.range' 1 n).map tbl).flatten := by
  have h := fetchPages_ok src tbl n hsome hstop fuel 1 (by omega) (by omega) (by omega)
  rw [show n + 2 - 1 = n + 1 from by omega, show n + 1 - 1 = n from by omega] at h
  refine ⟨h, ?_, ?_⟩
  · intro q hq
    rw [h] at hq
    have := List.mem_range'_1.1 hq
    omega
  · rw [scrapeDataset, h]
    have hne : ((List.range' 1 n).map tbl).isEmpty = false := by
      rw [List.isEmpty_eq_false_iff_exists_mem]
      exact ⟨tbl 1, List.mem_map_of_mem tbl (List.mem_range'_1.2 (by omega))⟩
    simp [hne]

/-- A fake source with tables on pages 1-3 and none afterwards. -/
def srcThree : Nat → FetchResult Nat :=
  fun i => if i ≤ 3 then FetchResult.table [i] else FetchResult.noTable

theorem pagination_terminates_witness :
    fetchPages srcThree 10 1 = ([1, 2, 3, 4], ScrapeOutcome.ok [[1], [2], [3]]) ∧
    scrapeDataset srcThree 10 = Except.ok [1, 2, 3] := by
  have h := pagination_terminates srcThree (fun i => [i]) 3 10 (by omega) (by omega)
    (fun i h1 h2 => by interval_cases i <;> rfl) (by rfl)
  exact ⟨by rw [h.1]; rfl, by rw [h.2.2]; rfl⟩

/-- Claim C6 is false on the code: when page 1 already has no table, the
collected frame list is empty and `pl.concat` raises
`ValueError("cannot concat empty list")`; the run fails instead of
returning an empty dataset. -/
theorem empty_first_page_counterexample :
    scrapeDataset (α := Nat) (fun _ => FetchResult.noTable) 5 ≠ Except.ok [] := by
  have h : scrapeDataset (α := Nat) (fun _ => FetchResult.noTable) 5 =
      Except.error ("cannot concat empty list") := rfl
  rw [h]
  intro hc
  exact Except.noConfusion hc

/-- Claim C6 amended: when the very first page has no data table, the loop
terminates immediately after that single request, but the subsequent
`pl.concat` step fails on the empty frame list, so the run errors instead
of producing an empty dataset. -/
theorem empty_first_page_errors {α : Type} (src : Nat → FetchResult α) (fuel : Nat)
    (hfuel : 1 ≤ fuel) (h1 : src 1 = FetchResult.noTable) :
    fetchPages src fuel 1 = ([1], ScrapeOutcome.ok []) ∧
    scrapeDataset src fuel = Except.error ("cannot concat empty list") := by
  obtain ⟨f, rfl⟩ : ∃ f, fuel = f + 1 := ⟨fuel - 1, by omega⟩
  rw [scrapeDataset, fetchPages, h1]
  exact ⟨rfl, rfl⟩

theorem empty_first_page_errors_witness :
    scrapeDataset (α := Nat) (fun _ => FetchResult.noTable) 7 =
      Except.error ("cannot concat empty list") :=
  (empty_first_page_errors (fun _ => FetchResult.noTable) 7 (by omega) rfl).2

lemma fetchPages_fault {α : Type} (src : Nat → FetchResult α) (tbl : Nat → List α) (p : Nat)
    (hsome : ∀ i, 1 ≤ i → i < p → src i = FetchResult.table (tbl i))
    (hfail : src p = FetchResult.transportFail) :
    ∀ fuel page, 1 ≤ page → page ≤ p → p - page < fuel →
      fetchPages src fuel page =
        (List.range' page (p + 1 - page), ScrapeOutcome.transportFault) := by
  intro fuel
  induction fuel with
  | zero => intro page _ _ h3; omega
  | succ fuel ih =>
    intro page h1 h2 h3
    by_cases hp : page = p
    · subst hp
      have e1 : page + 1 - page = 1 := by omega
      rw [fetchPages, hfail, e1]
      rfl
    · have hplt : page < p := by omega
      have hsrc := hsome page h1 hplt
      have e1 : p + 1 - page = (p + 1 - (page + 1)) + 1 := by omega
      rw [fetchPages, hsrc]
      simp only [ih (page + 1) (by omega) (by omega) (by omega)]
      rw [e1, List.range'_succ]

/-- Claim C9: a transport fault on page `p` propagates immediately: page
`p` is requested exactly once (no retry), no later page is requested, the
run aborts with the error, and none of the three output artifacts is
produced. -/
theorem transport_fault_aborts {α : Type} [DecidableEq α] (src : Nat → FetchResult α)
    (tbl : Nat → List α) (p fuel : Nat) (hp : 1 ≤ p) (hfuel : p ≤ fuel)
    (hsome : ∀ i, 1 ≤ i → i < p → src i = FetchResult.table (tbl i))
    (hfail : src p = FetchResult.transportFail) :
    fetchPages src fuel 1 = (List.range' 1 p, ScrapeOutcome.transportFault) ∧
    (fetchPages src fuel 1).1.count p = 1 ∧
    (∀ q ∈ (fetchPages src fuel 1).1, q ≤ p) ∧
    scrapeDataset src fuel = Except.error ("transport fault") ∧
    runMain src fuel = none := by
  have h := fetchPages_fault src tbl p hsome hfail fuel 1 (by omega) (by omega) (by omega)
  rw [show p + 1 - 1 = p from by omega] at h
  have hds : scrapeDataset src fuel = Except.error ("transport fault") := by
    rw [scrapeDataset, h]
  refine ⟨h, ?_, ?_, hds, ?_⟩
  · rw [h]
    exact List.count_eq_one_of_mem (List.nodup_range' _ _)
      (List.mem_range'_1.2 (by omega))
  · intro q hq
    rw [h] at hq
    have := List.mem_range'_1.1 hq
    omega
  · rw [runMain, hds]

/-- A fake source with tables on pages 1-2 and a transport fault on
page 3. -/
def srcFault : Nat → FetchResult Nat :=
  fun i => if i < 3 then FetchResult.table [i] else FetchResult.transportFail

theorem transport_fault_aborts_witness :
    fetchPages srcFault 10 1 = ([1, 2, 3], ScrapeOutcome.transportFault) ∧
    scrapeDataset srcFault 10 = Except.error ("transport fault") ∧
    runMain srcFault 10 = none := by
  have h := transport_fault_aborts srcFault (fun i => [i]) 3 10 (by omega) (by omega)
    (fun i h1 h2 => by interval_cases i <;> rfl) (by rfl)
  exact ⟨by rw [h.1]; rfl, h.2.2.2.1, h.2.2.2.2⟩

/-! ## C7: duplicate removal -/

lemma dedupeGo_eq_aux {α : Type} [DecidableEq α] (orig : List α) :
    ∀ (rs : List α) (i : Nat) (seen : List α), orig.drop i = rs →
      (∀ a, a ∈ seen ↔ a ∈ orig.take i) →
      dedupeGo seen rs = dedupSpecAux orig i rs := by
  intro rs
  induction rs with
  | nil => intro i seen _ _; rfl
  | cons r rs ih =>
    intro i seen hdrop hseen
    have htake : orig.take (i + 1) = orig.take i ++ [r] := by
      rw [List.take_add, hdrop]
      rfl
    have hdrop' : orig.drop (i + 1) = rs := by
      rw [← List.drop_drop, hdrop]
      rfl
    rw [dedupeGo, dedupSpecAux]
    by_cases hr : r ∈ orig.take i
    · have hrs : r ∈ seen := (hseen r).2 hr
      rw [if_pos hrs, if_pos hr]
      exact ih (i + 1) seen hdrop' fun a => by
        rw [hseen a, htake, List.mem_append, List.mem_singleton]
        constructor
        · exact Or.inl
        · rintro (h | rfl)
          · exact h
          · exact hr
    · have hrs : r ∉ seen := fun h => hr ((hseen r).1 h)
      rw [if_neg hrs, if_neg hr]
      congr 1
      exact ih (i + 1) (r :: seen) hdrop' fun a => by
        rw [List.mem_cons, hseen a, htake, List.mem_append, List.mem_singleton]
        tauto

lemma dedupeGo_sublist {α : Type} [DecidableEq α] :
    ∀ (rows seen : List α), (dedupeGo seen rows).Sublist rows := by
  intro rows
  induction rows with
  | nil => intro seen; exact List.Sublist.refl []
  | cons r rs ih =>
    intro seen
    rw [dedupeGo]
    by_cases h : r ∈ seen
    · rw [if_pos h]
      exact (ih seen).cons r
    · rw [if_neg h]
      exact (ih (r :: seen)).cons₂ r

lemma dedupeGo_not_seen {α : Type} [DecidableEq α] :
    ∀ (rows seen : List α) (a : α), a ∈ dedupeGo seen rows → a ∉ seen := by
  intro rows
  induction rows with
  | nil => intro seen a ha; cases ha
  | cons r rs ih =>
    intro seen a ha
    rw [dedupeGo] at ha
    by_cases h : r ∈ seen
    · rw [if_pos h] at ha
      exact ih seen a ha
    · rw [if_neg h] at ha
      rcases List.mem_cons.1 ha with rfl | ha'
      · exact h
      · intro hs
        exact ih (r :: seen) a ha' (List.mem_cons_of_mem r hs)

lemma dedupeGo_nodup {α : Type} [DecidableEq α] :
    ∀ (rows seen : List α), (dedupeGo seen rows).Nodup := by
  intro rows
  induction rows with
  | nil => intro seen; exact List.nodup_nil
  | cons r rs ih =>
    intro seen
    rw [dedupeGo]
    by_cases h : r ∈ seen
    · rw [if_pos h]
      exact ih seen
    · rw [if_neg h]
      refine List.Nodup.cons ?_ (ih (r :: seen))
      intro hmem
      exact dedupeGo_not_seen rs (r :: seen) r hmem (List.mem_cons_self r seen)

/-- Claim C7: `df.unique(maintain_order=True)` over full rows removes
exactly the rows identical to an earlier row (`dedupSpecAux` keeps the row
at index `i` iff none of the first `i` rows equals it), keeps the first
occurrence of each distinct row, and preserves the relative order of the
kept rows (the result is a duplicate-free sublist of the input). -/
theorem dedupe_removes_exact_duplicates {α : Type} [DecidableEq α] (rows : List α) :
    dedupe rows = dedupSpec rows ∧ (dedupe rows).Sublist rows ∧ (dedupe rows).Nodup := by
  refine ⟨?_, dedupeGo_sublist rows [], dedupeGo_nodup rows []⟩
  exact dedupeGo_eq_aux rows rows 0 [] rfl fun a => by simp

theorem dedupe_removes_exact_duplicates_witness :
    dedupe [(⟨"Aluminum", "Adhesive", "GSFC1"⟩ : OutRow),
        ⟨"Kapton", "Tape", "GSFC2"⟩, ⟨"Aluminum", "Adhesive", "GSFC1"⟩] =
      [⟨"Aluminum", "Adhesive", "GSFC1"⟩, ⟨"Kapton", "Tape", "GSFC2"⟩] := by
  rw [(dedupe_removes_exact_duplicates _).1]
  rfl

/-! ## C8: column ordering -/

/-- Claim C8 is false on the code: `all_cols` always begins with the entire
ten-name priority list, whether or not each name is among the present
columns, and `df.select` then raises on a missing column.  For the present
set `["Year", "Extra1"]` the claim predicts the output
`["Year", "Extra1"]`, but the code errors. -/
theorem column_order_counterexample :
    selectColumns ["Year", "Extra1"] ≠ some ["Year", "Extra1"] := by
  decide

/-- Claim C8 amended: provided every priority column is present (which the
pipeline guarantees), the output is the priority sequence (which then
equals its restriction to present columns) followed by the remaining
present columns in their original relative order, and no column appears
twice; when a priority column is absent, `df.select` errors instead of
restricting the priority list. -/
theorem column_order_amended (present : List String)
    (hmain : ∀ c ∈ mainColsList, c ∈ present) (hnodup : present.Nodup) :
    selectColumns present =
      some (mainColsList.filter (fun c => decide (c ∈ present)) ++
        present.filter (fun c => decide (c ∉ mainColsList))) ∧
    (allColsOrdered present).Nodup := by
  have hfilt : mainColsList.filter (fun c => decide (c ∈ present)) = mainColsList :=
    List.filter_eq_self.2 fun c hc => decide_eq_true (hmain c hc)
  constructor
  · have hall : (allColsOrdered present).all (fun c => decide (c ∈ present)) = true := by
      rw [List.all_eq_true]
      intro c hc
      rcases List.mem_append.1 hc with h | h
      · exact decide_eq_true (hmain c h)
      · exact decide_eq_true (List.mem_filter.1 h).1
    rw [selectColumns, if_pos hall, allColsOrdered, hfilt]
  · rw [allColsOrdered]
    refine List.Nodup.append ?_ (hnodup.filter _) ?_
    · decide
    · intro a ha hb
      have := of_decide_eq_true (List.mem_filter.1 hb).2
      exact this ha

theorem column_order_amended_witness :
    selectColumns (mainColsList ++ ["Extra1"]) = some (mainColsList ++ ["Extra1"]) := by
  have h := column_order_amended (mainColsList ++ ["Extra1"]) (by decide) (by decide)
  rw [h.1]
  rfl

/-! ## C10: ampersand elimination

Characters of a `replaceAll` output come from the input or from the
replacement text; the very first substitution rule replaces every literal
`&` (by `" and "`), and no later rule, the trim, or the final dictionary
can reintroduce one. -/

lemma starSplits_sublist (p : Char → Bool) :
    ∀ (s : List Char) (prev : Option Char) (pr : Option Char × List Char),
      pr ∈ starSplits p prev s → pr.2.Sublist s := by
  intro s
  induction s with
  | nil =>
    intro prev pr h
    rw [starSplits, List.mem_singleton] at h
    subst h
    exact List.Sublist.refl []
  | cons c rest ih =>
    intro prev pr h
    rw [starSplits] at h
    by_cases hc : p c
    · rw [if_pos hc, List.mem_append, List.mem_singleton] at h
      rcases h with h | h
      · exact (ih (some c) pr h).cons c
      · subst h
        exact List.Sublist.refl _
    · rw [if_neg hc, List.mem_singleton] at h
      subst h
      exact List.Sublist.refl _

lemma mtch_sublist :
    ∀ (re : RE) (prev : Option Char) (s : List Char) (pr : Option Char × List Char),
      pr ∈ mtch re prev s → pr.2.Sublist s := by
  intro re
  induction re with
  | eps =>
    intro prev s pr h
    rw [mtch, List.mem_singleton] at h
    subst h
    exact List.Sublist.refl _
  | lit c =>
    intro prev s pr h
    cases s with
    | nil => cases h
    | cons d rest =>
      rw [mtch] at h
      by_cases hd : d = c
      · rw [if_pos hd, List.mem_singleton] at h
        subst h
        exact (List.Sublist.refl rest).cons d
      · rw [if_neg hd] at h
        cases h
  | ilit c =>
    intro prev s pr h
    cases s with
    | nil => cases h
    | cons d rest =>
      rw [mtch] at h
      by_cases hd : d.toLower = c.toLower
      · rw [if_pos hd, List.mem_singleton] at h
        subst h
        exact (List.Sublist.refl rest).cons d
      · rw [if_neg hd] at h
        cases h
  | anyc =>
    intro prev s pr h
    cases s with
    | nil => cases h
    | cons d rest =>
      rw [mtch] at h
      by_cases hd : d = '\n'
      · rw [if_pos hd] at h
        cases h
      · rw [if_neg hd, List.mem_singleton] at h
        subst h
        exact (List.Sublist.refl rest).cons d
  | cls cs =>
    intro prev s pr h
    cases s with
    | nil => cases h
    | cons d rest =>
      rw [mtch] at h
      by_cases hd : cs.contains d
      · rw [if_pos hd, List.mem_singleton] at h
        subst h
        exact (List.Sublist.refl rest).cons d
      · rw [if_neg hd] at h
        cases h
  | wb =>
    intro prev s pr h
    rw [mtch] at h
    by_cases hb : atBoundary prev s
    · rw [if_pos hb, List.mem_singleton] at h
      subst h
      exact List.Sublist.refl _
    · rw [if_neg hb] at h
      cases h
  | seq a b iha ihb =>
    intro prev s pr h
    rw [mtch, List.mem_flatMap] at h
    obtain ⟨q, hq, hpr⟩ := h
    exact (ihb q.1 q.2 pr hpr).trans (iha prev s q hq)
  | alt a b iha ihb =>
    intro prev s pr h
    rw [mtch, List.mem_append] at h
    rcases h with h | h
    · exact iha prev s pr h
    · exact ihb prev s pr h
  | opt a iha =>
    intro prev s pr h
    rw [mtch, List.mem_append, List.mem_singleton] at h
    rcases h with h | h
    · exact iha prev s pr h
    · subst h
      exact List.Sublist.refl _
  | starP p =>
    intro prev s pr h
    rw [mtch] at h
    exact starSplits_sublist p s prev pr h
  | plusP p =>
    intro prev s pr h
    cases s with
    | nil => cases h
    | cons c rest =>
      rw [mtch] at h
      by_cases hc : p c
      · rw [if_pos hc] at h
        exact (starSplits_sublist p rest (some c) pr h).cons c
      · rw [if_neg hc] at h
        cases h

lemma head?_mem {β : Type} {l : List β} {b : β} (h : l.head? = some b) : b ∈ l := by
  cases l with
  | nil => cases h
  | cons x xs =>
    rw [List.head?_cons, Option.some_inj] at h
    subst h
    exact List.mem_cons_self x xs

lemma replaceAllGo_mem (re : RE) (repl : List Char) :
    ∀ (fuel : Nat) (prev : Option Char) (s : List Char) (ch : Char),
      ch ∈ replaceAllGo re repl fuel prev s → ch ∈ s ∨ ch ∈ repl := by
  intro fuel
  induction fuel with
  | zero => intro prev s ch h; exact Or.inl h
  | succ fuel ih =>
    intro prev s ch h
    cases s with
    | nil => cases h
    | cons c rest =>
      rw [replaceAllGo] at h
      cases hm : (mtch re prev (c :: rest)).head? with
      | none =>
        rw [hm] at h
        rcases List.mem_cons.1 h with rfl | h'
        · exact Or.inl (List.mem_cons_self ch rest)
        · rcases ih (some c) rest ch h' with hs | hr
          · exact Or.inl (List.mem_cons_of_mem c hs)
          · exact Or.inr hr
      | some pr =>
        obtain ⟨p, r⟩ := pr
        simp only [hm] at h
        by_cases hlen : r.length < rest.length + 1
        · rw [if_pos hlen] at h
          rcases List.mem_append.1 h with hr | h'
          · exact Or.inr hr
          · rcases ih p r ch h' with hs | hr
            · exact Or.inl ((mtch_sublist re prev (c :: rest) (p, r) (head?_mem hm)).mem hs)
            · exact Or.inr hr
        · rw [if_neg hlen] at h
          rcases List.mem_cons.1 h with rfl | h'
          · exact Or.inl (List.mem_cons_self ch rest)
          · rcases ih (some c) rest ch h' with hs | hr
            · exact Or.inl (List.mem_cons_of_mem c hs)
            · exact Or.inr hr

lemma replaceAll_mem (re : RE) (repl s : List Char) (ch : Char)
    (h : ch ∈ replaceAll re repl s) : ch ∈ s ∨ ch ∈ repl :=
  replaceAllGo_mem re repl s.length none s ch h

lemma ampFree_replaceAll (re : RE) (repl s : List Char)
    (hrepl : ('&') ∉ repl) (hs : ('&') ∉ s) : ('&') ∉ replaceAll re repl s :=
  fun h => (replaceAll_mem re repl s '&' h).elim hs hrepl

/-- The first substitution rule (`"&" → " and "`) leaves no ampersand,
whatever the input. -/
lemma ampElim_replaceAllGo :
    ∀ (fuel : Nat) (prev : Option Char) (s : List Char), s.length ≤ fuel →
      ('&') ∉ replaceAllGo (RE.lit '&') ((" and ").data) fuel prev s := by
  intro fuel
  induction fuel with
  | zero =>
    intro prev s hlen
    have hs : s = [] := List.length_eq_zero.1 (Nat.le_zero.1 hlen)
    subst hs
    intro h
    cases h
  | succ fuel ih =>
    intro prev s hlen
    cases s with
    | nil => intro h; cases h
    | cons c rest =>
      rw [replaceAllGo]
      by_cases hc : c = '&'
      · subst hc
        have hm : (mtch (RE.lit '&') prev ('&' :: rest)).head? = some (some '&', rest) := rfl
        simp only [hm]
        rw [if_pos (show rest.length < rest.length + 1 by omega)]
        intro h
        rcases List.mem_append.1 h with h' | h'
        · revert h'
          decide
        · exact ih (some '&') rest (by simpa using Nat.le_of_succ_le_succ hlen) h'
      · have hm : (mtch (RE.lit '&') prev (c :: rest)).head? = none := by
          rw [mtch, if_neg hc]
          rfl
        rw [hm]
        intro h
        rcases List.mem_cons.1 h with h' | h'
        · exact hc h'.symm
        · exact ih (some c) rest (by simpa using Nat.le_of_succ_le_succ hlen) h'

lemma ampFree_foldl :
    ∀ (rules : List (RE × List Char)) (s : List Char),
      (∀ r ∈ rules, ('&') ∉ r.2) → ('&') ∉ s →
      ('&') ∉ rules.foldl (fun acc rule => replaceAll rule.1 rule.2 acc) s := by
  intro rules
  induction rules with
  | nil => intro s _ hs; exact hs
  | cons r rest ih =>
    intro s hr hs
    rw [List.foldl_cons]
    exact ih _ (fun q hq => hr q (List.mem_cons_of_mem r hq))
      (ampFree_replaceAll r.1 r.2 s (hr r (List.mem_cons_self r rest)) hs)

lemma ampFree_applyChain (s : List Char) : ('&') ∉ applyChain s := by
  rw [applyChain, substitutionRules, List.foldl_cons]
  apply ampFree_foldl
  · decide
  · exact ampElim_replaceAllGo s.length none s (Nat.le_refl _)

lemma mem_dropWhile {β : Type} (p : β → Bool) (l : List β) (b : β)
    (h : b ∈ l.dropWhile p) : b ∈ l :=
  (List.dropWhile_sublist p).mem h

lemma ampFree_strip (s : List Char) (hs : ('&') ∉ s) : ('&') ∉ stripChars s := by
  intro h
  rw [stripChars, List.mem_reverse] at h
  exact hs (mem_dropWhile _ _ _ (List.mem_reverse.1 (mem_dropWhile _ _ _ h)))

lemma ampFree_dict (s : List Char) (hs : ('&') ∉ s) : ('&') ∉ dictReplace s := by
  rw [dictReplace]
  cases hf : applicationReplaceMap.find? (fun kv => kv.1 == s) with
  | none => exact hs
  | some kv =>
    have hmem := List.mem_of_find?_eq_some hf
    have hvals : ∀ q ∈ applicationReplaceMap, ('&') ∉ q.2 := by decide
    exact hvals kv hmem

lemma ampFree_normalizeAppChars (l : List Char) : ('&') ∉ normalizeAppChars l := by
  unfold normalizeAppChars normalizeTailChars
  exact ampFree_dict _ (ampFree_strip _ (ampFree_applyChain _))

lemma normalizeApplication_eq (s : String) :
    normalizeApplication s = String.mk (normalizeAppChars s.data) :=
  rfl

lemma data_mk (l : List Char) : (String.mk l).data = l :=
  rfl

set_option maxRecDepth 40000 in
set_option maxHeartbeats 2000000 in
/-- Claim C10: the normalized `Application` value never contains an
ampersand: every literal `&` is replaced by the word `and` (space-padded,
then collapsed to single spaces and kept lowercase by the later rules), and
no later rule reintroduces one; e.g. `"Rf & Emi Filter"` normalizes to
`"RF and EMI Filter"`. -/
theorem ampersand_eliminated :
    (∀ s : String, ('&') ∉ (normalizeApplication s).data) ∧
    normalizeApplication ("Rf & Emi Filter") = "RF and EMI Filter" := by
  constructor
  · intro s
    rw [normalizeApplication_eq, data_mk]
    exact ampFree_normalizeAppChars s.data
  · decide

/-! ## C2: idempotence of the normalizer -/

set_option maxRecDepth 40000 in
set_option maxHeartbeats 2000000 in
/-- Claim C2 is false on the code: the `3D` rule `3.?[Dd] → 3D` is not
anchored to word boundaries, so a second pass can re-match across the
output of the first.  The input `"33RD"` title-cases to `"33rd"` and
normalizes to `"33D"` (the rule consumes `"3rd"`), but normalizing
`"33D"` again yields `"3D"` (the rule now consumes `"33D"` after
title-casing to `"33d"`). -/
theorem normalization_not_idempotent :
    normalizeApplication (normalizeApplication ("33RD")) ≠
      normalizeApplication ("33RD") := by
  decide

set_option maxRecDepth 40000 in
set_option maxHeartbeats 4000000 in
/-- Claim C2 amended: the full normalization sequence is idempotent on the
spec's exemplar inputs and on typical values (including an acronym,
ampersand, O-ring, compound-term and dictionary case), but not on every
string: the input `"33RD"` is a counterexample. -/
theorem normalization_idempotent_on_exemplars :
    normalizeApplication (normalizeApplication ("2 SIDE TAPE")) =
      normalizeApplication ("2 SIDE TAPE") ∧
    normalizeApplication (normalizeApplication ("Thermal Cond Matl")) =
      normalizeApplication ("Thermal Cond Matl") ∧
    normalizeApplication (normalizeApplication ("PC Board")) =
      normalizeApplication ("PC Board") ∧
    normalizeApplication (normalizeApplication ("Rf & Emi Filter")) =
      normalizeApplication ("Rf & Emi Filter") ∧
    normalizeApplication (normalizeApplication ("O ring seal")) =
      normalizeApplication ("O ring seal") := by
  refine ⟨by decide, by decide, by decide, by decide, by decide⟩

end NasaOutgassing
